import Mathlib

/-!
Verification of the ComfyDock environment lifecycle engine.

The definitions below are a shallow embedding of the Python sources
`src/comfydock_core/environment.py`, `src/comfy_env_core/environment.py`
and `src/comfy_env_core/docker_interface.py`.  Stateful code is embedded
as explicit state passing: the container runtime (the external Docker
engine behind `DockerInterface`) is a finite map from container id to the
live container's status string, and the persisted registry (the JSON file
behind `persistence.load_environments` / `save_environments`, which load
and save the whole collection atomically) is a plain list of records
threaded in and out of every operation.
-/

namespace ComfyDock

/-- Metadata bag of an environment record.  The source stores a free-form
dict; the only keys the verified operations read or write are the numeric
timestamps `created_at` and `deleted_at`, so the bag is modelled as an
association list with numeric values where a later binding shadows an
earlier one, exactly the lookup behaviour of a dict after an update. -/
abbrev Metadata := List (String × Nat)

/-- Environment record, following the `Environment` pydantic model in
`environment.py`.  The free-form `options` bag and the string-valued
metadata key `base_image` are not modelled: no operation under
verification reads them. -/
structure Env where
  name : String
  image : String
  container_name : String
  id : String
  status : String
  command : String
  comfyui_path : String
  duplicate : Bool
  metadata : Metadata
  folderIds : List String
deriving DecidableEq

/-- Decidable equality for `Except` results, so that concrete outcomes of
the fallible operations can be checked by evaluation. -/
instance instDecEqExcept {ε α : Type} [DecidableEq ε] [DecidableEq α] :
    DecidableEq (Except ε α)
  | .error x, .error y =>
    if h : x = y then .isTrue (congrArg Except.error h)
    else .isFalse (fun hc => h (by injection hc))
  | .ok x, .ok y =>
    if h : x = y then .isTrue (congrArg Except.ok h)
    else .isFalse (fun hc => h (by injection hc))
  | .error _, .ok _ => .isFalse (fun hc => by injection hc)
  | .ok _, .error _ => .isFalse (fun hc => by injection hc)

/-- State of the external container runtime as seen through
`DockerInterface.get_container`: a finite map from container id to the
live container's status string; a missing key is the engine's not-found
answer (`DockerInterfaceContainerNotFoundError`). -/
abbrev Gateway := List (String × String)

/-- The reserved folder tag marking soft-deleted environments
(`DELETED_FOLDER_ID` in environment.py). -/
def DELETED_FOLDER_ID : String := "deleted"

/-- Status reconciliation performed by `EnvironmentManager.load_environments`
for one record: a found container's status is copied onto the record, a
missing container makes the record `dead` (environment.py lines 158-174). -/
def reconcile (gw : Gateway) (e : Env) : Env :=
  match gw.lookup e.id with
  | some st => { e with status := st }
  | none => { e with status := "dead" }

/-- `EnvironmentManager.load_environments`: reconcile every record's status
against the runtime, persist the reconciled collection (the save the source
performs through `persistence.save_environments` before returning), then
apply the optional folder filter.  The result is the pair
`(persisted collection, returned list)`. -/
def load_environments (gw : Gateway) (regs : List Env) (folder_id : Option String) :
    List Env × List Env :=
  let envs := regs.map (reconcile gw)
  let ret :=
    match folder_id with
    | none => envs
    | some fid =>
      if fid = "" then envs
      else if fid = "all" then
        envs.filter (fun e => decide (DELETED_FOLDER_ID ∉ e.folderIds))
      else envs.filter (fun e => decide (fid ∈ e.folderIds))
  (envs, ret)

/-- Whitespace class of the Python regex `\s` on ASCII input. -/
def isSpaceChar (c : Char) : Bool :=
  c == ' ' || c == '\t' || c == '\n' || c == '\r' || c == '\x0b' || c == '\x0c'

/-- Package-name character class of the manifest regex `[a-zA-Z0-9\-_]`. -/
def isPkgChar (c : Char) : Bool :=
  c.isAlpha || c.isDigit || c == '-' || c == '_'

/-- Leading package-name token of a manifest line, as matched by
`re.match` with pattern `^\s*([a-zA-Z0-9\-_]+)` in
`DockerInterface.install_custom_nodes`: optional leading whitespace, then
at least one package-name character; `none` when the line does not match. -/
def leadingToken (line : String) : Option String :=
  let tok := (line.toList.dropWhile isSpaceChar).takeWhile isPkgChar
  if tok.isEmpty then none else some (String.mk tok)

/-- Requirement-line filter inside `DockerInterface.install_custom_nodes`
(docker_interface.py lines 341-349): a line is dropped exactly when its
leading package-name token exists and is in the blacklist; every other
line is appended to the filtered manifest unchanged. -/
def filterRequirements (blacklist : List String) (lines : List String) : List String :=
  lines.filter (fun line =>
    match leadingToken line with
    | some t => decide (t ∉ blacklist)
    | none => true)

/-- C1 (amended): `load_environments` returns status `dead` whenever the
runtime reports the container absent, returns the live container's status
verbatim whenever it is present (a status that can itself be the string
`dead`), and persists the reconciled records: the persisted collection and
the returned list are the same reconciled records. -/
theorem load_environments_status_reconciled (gw : Gateway) (regs : List Env) :
    (load_environments gw regs none).1 = regs.map (reconcile gw) ∧
    (load_environments gw regs none).2 = (load_environments gw regs none).1 ∧
    ∀ e ∈ regs,
      (gw.lookup e.id = none → (reconcile gw e).status = "dead") ∧
      (∀ s, gw.lookup e.id = some s → (reconcile gw e).status = s) := by
  refine ⟨rfl, rfl, ?_⟩
  intro e _
  constructor
  · intro h
    simp [reconcile, h]
  · intro s h
    simp [reconcile, h]

/-- Registry record used by the witness of the amended C1 theorem. -/
def envW1 : Env :=
  { name := "a", image := "img", container_name := "n1", id := "c1",
    status := "", command := "", comfyui_path := "/h", duplicate := false,
    metadata := [], folderIds := [] }

/-- Witness for the amended C1 theorem at a concrete registry and runtime:
the record of a container the runtime reports as `running` comes back with
status `running`. -/
theorem load_environments_status_reconciled_witness :
    (reconcile [("c1", "running")] envW1).status = "running" :=
  ((load_environments_status_reconciled [("c1", "running")] [envW1]).2.2
    envW1 (by decide)).2 "running" (by decide)

/-- Registry record for the C1 counterexample. -/
def envC1 : Env :=
  { name := "a", image := "img", container_name := "comfy-env-1", id := "c1",
    status := "running", command := "", comfyui_path := "/home/u/comfy",
    duplicate := false, metadata := [], folderIds := [] }

/-- Runtime state for the C1 counterexample: the container is present and
its own Docker state is the string `dead` — a live-container status the
source itself anticipates (`deactivate_environment` lists `dead` among the
possible statuses of a found container). -/
def gwC1 : Gateway := [("c1", "dead")]

/-- C1 counterexample: after `load_environments`, a record's status can be
`dead` while the runtime reports its container as present (the lookup is
not `none`), so returned status `dead` is not equivalent to the runtime
reporting the container absent. -/
theorem load_environments_dead_not_iff_absent :
    ¬ (∀ e ∈ (load_environments gwC1 [envC1] none).2,
        (e.status = "dead" ↔ gwC1.lookup e.id = none)) := by
  decide

/-- C9: a manifest line whose leading package-name token is blacklisted is
dropped, every line that does not match the package-name pattern is kept,
and the kept lines are the original lines unchanged and in their original
order (the filtered manifest is a sublist of the input). -/
theorem filterRequirements_spec (blacklist lines : List String) :
    (∀ line ∈ lines, ∀ t, leadingToken line = some t → t ∈ blacklist →
        line ∉ filterRequirements blacklist lines) ∧
    (∀ line ∈ lines, leadingToken line = none →
        line ∈ filterRequirements blacklist lines) ∧
    (filterRequirements blacklist lines).Sublist lines := by
  refine ⟨?_, ?_, List.filter_sublist _⟩
  · intro line _ t ht hb hmem
    rcases List.mem_filter.mp hmem with ⟨-, hp⟩
    rw [ht] at hp
    simp only [decide_eq_true_eq] at hp
    exact hp hb
  · intro line hl hn
    refine List.mem_filter.mpr ⟨hl, ?_⟩
    rw [hn]

/-- Witness for the C9 theorem: with blacklist `torch`, the line
`torch==2.0` is dropped and the unclassifiable comment line is kept. -/
theorem filterRequirements_spec_witness :
    "torch==2.0" ∉ filterRequirements ["torch"] ["torch==2.0", "# comment", "numpy"] ∧
    "# comment" ∈ filterRequirements ["torch"] ["torch==2.0", "# comment", "numpy"] := by
  have h := filterRequirements_spec ["torch"] ["torch==2.0", "# comment", "numpy"]
  exact ⟨h.1 "torch==2.0" (by decide) "torch" (by decide) (by decide),
         h.2.1 "# comment" (by decide) (by decide)⟩

/-- Canonical mount entry of the new-style configuration: one element of
`mount_config["mounts"]` (the spec's MountEntry). -/
structure MountEntry where
  container_path : String
  host_path : String
  type : String
  read_only : Bool
deriving DecidableEq

/-- Fixed in-container ComfyUI root (`CONTAINER_COMFYUI_PATH`). -/
def CONTAINER_COMFYUI_PATH : String := "/app/ComfyUI"

/-- `DockerInterface.convert_old_to_new_style` (docker_interface.py lines
237-254): each legacy `subpath -> action` pair whose action is `mount` or
`copy` becomes a canonical entry whose host path is the source root joined
with the subpath and whose container path is the fixed ComfyUI root joined
with the subpath; the emitted `type` field is the literal string `mount`
and `read_only` is false.  Posix path joining is modelled as string
joining with a separator. -/
def convert_old_to_new_style (old_config : List (String × String))
    (comfyui_path : String) : List MountEntry :=
  old_config.filterMap (fun kv =>
    if kv.2 = "mount" ∨ kv.2 = "copy" then
      some { container_path := CONTAINER_COMFYUI_PATH ++ "/" ++ kv.1,
             host_path := comfyui_path ++ "/" ++ kv.1,
             type := "mount",
             read_only := false }
    else none)

/-- C2 counterexample: converting the legacy entry `models -> copy`
produces a canonical entry whose type is the string `mount`, not the
legacy entry's `copy` — the entry's type is not preserved (host path and
read_only do come out as the claim states). -/
theorem convert_old_copy_not_preserved :
    convert_old_to_new_style [("models", "copy")] "/base" =
      [{ container_path := "/app/ComfyUI/models", host_path := "/base/models",
         type := "mount", read_only := false }] ∧
    ¬ (∀ m ∈ convert_old_to_new_style [("models", "copy")] "/base",
        m.type = "copy") := by
  constructor
  · decide
  · decide

/-- C2 (amended): normalization sends every legacy entry with action
`mount` or `copy` to a canonical entry with host path equal to the source
root joined with the relative subpath and read_only false, but with the
type field always the string `mount` (the legacy action is not preserved);
entries with any other action are dropped. -/
theorem convert_old_to_new_style_spec (old_config : List (String × String))
    (comfyui_path : String) :
    (∀ kv ∈ old_config, kv.2 = "mount" ∨ kv.2 = "copy" →
      ({ container_path := CONTAINER_COMFYUI_PATH ++ "/" ++ kv.1,
         host_path := comfyui_path ++ "/" ++ kv.1,
         type := "mount", read_only := false } : MountEntry) ∈
        convert_old_to_new_style old_config comfyui_path) ∧
    (∀ m ∈ convert_old_to_new_style old_config comfyui_path,
      m.type = "mount" ∧ m.read_only = false ∧
      ∃ kv ∈ old_config, (kv.2 = "mount" ∨ kv.2 = "copy") ∧
        m.host_path = comfyui_path ++ "/" ++ kv.1 ∧
        m.container_path = CONTAINER_COMFYUI_PATH ++ "/" ++ kv.1) := by
  constructor
  · intro kv hkv hact
    refine List.mem_filterMap.mpr ⟨kv, hkv, ?_⟩
    rw [if_pos hact]
  · intro m hm
    rcases List.mem_filterMap.mp hm with ⟨kv, hkv, hsome⟩
    by_cases hact : kv.2 = "mount" ∨ kv.2 = "copy"
    · rw [if_pos hact] at hsome
      have hme := Option.some.inj hsome
      subst hme
      exact ⟨rfl, rfl, kv, hkv, hact, rfl, rfl⟩
    · rw [if_neg hact] at hsome
      exact Option.noConfusion hsome

/-- Witness for the amended C2 theorem at a concrete legacy configuration. -/
theorem convert_old_to_new_style_spec_witness :
    ({ container_path := CONTAINER_COMFYUI_PATH ++ "/" ++ "models",
       host_path := "/b" ++ "/" ++ "models",
       type := "mount", read_only := false } : MountEntry) ∈
      convert_old_to_new_style [("models", "mount")] "/b" :=
  (convert_old_to_new_style_spec [("models", "mount")] "/b").1
    ("models", "mount") (by decide) (Or.inl rfl)

/-- Absolute-path test of `Path.is_absolute` on posix-style paths: the
path begins with a slash. -/
def isAbsolutePath (p : String) : Bool :=
  match p.toList with
  | [] => false
  | c :: _ => c == '/'

/-- Resolution of a configured host path against the source root, as the
source performs with `Path` arithmetic: an absolute path is kept, a
relative one is joined under `comfyui_path`. -/
def resolveSource (comfyui_path host_path : String) : String :=
  if isAbsolutePath host_path then host_path else comfyui_path ++ "/" ++ host_path

/-- Bind-mount specification handed to the container runtime
(`docker.types.Mount` with type `bind`). -/
structure MountSpec where
  target : String
  source : String
  read_only : Bool
deriving DecidableEq

/-- Host filesystem model: the set of existing paths; a directory creation
adds the path to the set. -/
abbrev HostFs := List String

/-- ASCII lowercase of one character, the effect of Python's `str.lower`
on the ASCII type strings compared here. -/
def toLowerChar (c : Char) : Char :=
  if 'A' ≤ c ∧ c ≤ 'Z' then Char.ofNat (c.toNat + 32) else c

/-- ASCII lowercase of a string (`m.get("type", "").lower()`). -/
def lowerString (s : String) : String := String.mk (s.toList.map toLowerChar)

/-- One step of the entry loop in
`DockerInterface._create_mounts_from_new_config` (docker_interface.py
lines 381-413).  The source's two skip branches (lowered type neither
`mount` nor `copy`; a missing container or host path) are merged into the
negation of one condition; otherwise the host path is resolved, created
when absent (`mkdir(parents=True, exist_ok=True)`), and a bind-mount spec
is appended — for `mount` and `copy` entries alike. -/
def processMountEntry (comfyui_path : String) (acc : List MountSpec × HostFs)
    (m : MountEntry) : List MountSpec × HostFs :=
  if (lowerString m.type = "mount" ∨ lowerString m.type = "copy") ∧
      m.container_path ≠ "" ∧ m.host_path ≠ "" then
    (acc.1 ++ [{ target := m.container_path,
                 source := resolveSource comfyui_path m.host_path,
                 read_only := m.read_only }],
     if resolveSource comfyui_path m.host_path ∈ acc.2 then acc.2
     else resolveSource comfyui_path m.host_path :: acc.2)
  else acc

/-- `DockerInterface._create_mounts_from_new_config`: fold the entry loop
over the configuration, then append the optional read-only `/usr/lib/wsl`
mount when that host path exists.  Returns the mount specs handed to
`create_container` together with the host filesystem after the directory
creations. -/
def create_mounts_from_new_config (cfg : List MountEntry) (comfyui_path : String)
    (fs : HostFs) : List MountSpec × HostFs :=
  let r := cfg.foldl (processMountEntry comfyui_path) ([], fs)
  if "/usr/lib/wsl" ∈ r.2 then
    (r.1 ++ [{ target := "/usr/lib/wsl", source := "/usr/lib/wsl", read_only := true }],
     r.2)
  else r

/-- Result of `DockerInterface._process_copy_mount`: the boolean the
source returns (custom nodes installed), whether the copy itself was
performed, and the host filesystem afterwards. -/
structure CopyMountResult where
  installed : Bool
  copied : Bool
  fs : HostFs
deriving DecidableEq

/-- Test whether a character list begins with the given pattern. -/
def charsStartWith : List Char → List Char → Bool
  | _, [] => true
  | [], _ :: _ => false
  | c :: cs, p :: ps => c == p && charsStartWith cs ps

/-- Substring test on character lists: some suffix begins with the pattern. -/
def containsSubstrChars : List Char → List Char → Bool
  | [], pat => charsStartWith [] pat
  | c :: rest, pat => charsStartWith (c :: rest) pat || containsSubstrChars rest pat

/-- Substring test modelling Python's `in` operator on strings. -/
def containsSubstr (s pat : String) : Bool :=
  containsSubstrChars s.toList pat.toList

/-- `DockerInterface._process_copy_mount` (docker_interface.py lines
256-276): a copy entry with a missing path field is skipped; otherwise the
source is resolved against the root and, when it exists on the host, its
tree is copied into the container (running the custom-nodes install when
the container path contains `custom_nodes`); a missing source is only
warned about and skipped — the host filesystem is never modified. -/
def process_copy_mount (m : MountEntry) (comfyui_path : String) (fs : HostFs) :
    CopyMountResult :=
  if m.host_path = "" ∨ m.container_path = "" then
    { installed := false, copied := false, fs := fs }
  else if resolveSource comfyui_path m.host_path ∈ fs then
    { installed := containsSubstr m.container_path "custom_nodes",
      copied := true, fs := fs }
  else
    { installed := false, copied := false, fs := fs }

/-- Copy-typed entry with an absent host source, used in the C3
counterexample. -/
def copyEntryC3 : MountEntry :=
  { container_path := "/app/ComfyUI/models", host_path := "/data/models",
    type := "copy", read_only := false }

/-- C3 counterexample: at container-create time,
`_create_mounts_from_new_config` treats a `copy`-typed entry exactly like
a `mount` one — the absent host path `/data/models` is created and the
entry is handed to the runtime as a bind-mount spec, contradicting both
the created-only-for-mount and the only-mount-entries-bound parts of the
claim. -/
theorem create_mounts_copy_entry_created_and_bound :
    create_mounts_from_new_config [copyEntryC3] "/rootdir" [] =
      ([{ target := "/app/ComfyUI/models", source := "/data/models",
          read_only := false }],
       ["/data/models"]) ∧
    copyEntryC3.type = "copy" := by
  constructor
  · decide
  · decide

/-- Monotonicity of the mount-entry loop: specs already emitted and paths
already existing are preserved by processing further entries. -/
theorem foldl_processMountEntry_mono (comfyui_path : String)
    (cfg : List MountEntry) (acc : List MountSpec × HostFs) :
    (∀ s ∈ acc.1, s ∈ (cfg.foldl (processMountEntry comfyui_path) acc).1) ∧
    (∀ p ∈ acc.2, p ∈ (cfg.foldl (processMountEntry comfyui_path) acc).2) := by
  induction cfg generalizing acc with
  | nil => exact ⟨fun s hs => hs, fun p hp => hp⟩
  | cons x rest ih =>
    simp only [List.foldl_cons]
    constructor
    · intro s hs
      refine (ih (processMountEntry comfyui_path acc x)).1 s ?_
      unfold processMountEntry
      split
      · exact List.mem_append_left _ hs
      · exact hs
    · intro p hp
      refine (ih (processMountEntry comfyui_path acc x)).2 p ?_
      unfold processMountEntry
      split
      · simp only []
        split
        · exact hp
        · exact List.mem_cons_of_mem _ hp
      · exact hp

/-- Every entry of the configuration whose lowered type is `mount` or
`copy` and whose paths are nonempty contributes its bind-mount spec and
its (possibly just created) resolved source path to the loop's result. -/
theorem foldl_processMountEntry_mem (comfyui_path : String)
    (cfg : List MountEntry) (acc : List MountSpec × HostFs) (m : MountEntry)
    (hm : m ∈ cfg)
    (hty : lowerString m.type = "mount" ∨ lowerString m.type = "copy")
    (hc : m.container_path ≠ "") (hh : m.host_path ≠ "") :
    ({ target := m.container_path,
       source := resolveSource comfyui_path m.host_path,
       read_only := m.read_only } : MountSpec) ∈
        (cfg.foldl (processMountEntry comfyui_path) acc).1 ∧
    resolveSource comfyui_path m.host_path ∈
        (cfg.foldl (processMountEntry comfyui_path) acc).2 := by
  induction cfg generalizing acc with
  | nil => cases hm
  | cons x rest ih =>
    simp only [List.foldl_cons]
    rcases List.mem_cons.mp hm with hx | hm'
    · subst hx
      have hcond : (lowerString m.type = "mount" ∨ lowerString m.type = "copy") ∧
          m.container_path ≠ "" ∧ m.host_path ≠ "" := ⟨hty, hc, hh⟩
      constructor
      · apply (foldl_processMountEntry_mono comfyui_path rest _).1
        simp only [processMountEntry, if_pos hcond]
        exact List.mem_append_right _ (List.mem_singleton.mpr rfl)
      · apply (foldl_processMountEntry_mono comfyui_path rest _).2
        simp only [processMountEntry, if_pos hcond]
        by_cases hin : resolveSource comfyui_path m.host_path ∈ acc.2
        · simp only [if_pos hin]
          exact hin
        · simp only [if_neg hin]
          exact List.mem_cons_self _ _
    · exact ih _ hm'

/-- C3 (amended): at container-create time the resolver creates missing
resolved host paths and emits bind-mount specs for entries of type `mount`
and of type `copy` alike; it is only the copy-realization step
(`_process_copy_mount`, run at activation) that never creates a missing
host source and skips the entry with a warning. -/
theorem create_mounts_and_copy_realization_spec (cfg : List MountEntry)
    (comfyui_path : String) (fs : HostFs) :
    (∀ m ∈ cfg, (lowerString m.type = "mount" ∨ lowerString m.type = "copy") →
      m.container_path ≠ "" → m.host_path ≠ "" →
      ({ target := m.container_path,
         source := resolveSource comfyui_path m.host_path,
         read_only := m.read_only } : MountSpec) ∈
          (create_mounts_from_new_config cfg comfyui_path fs).1 ∧
      resolveSource comfyui_path m.host_path ∈
          (create_mounts_from_new_config cfg comfyui_path fs).2) ∧
    (∀ m : MountEntry, resolveSource comfyui_path m.host_path ∉ fs →
      process_copy_mount m comfyui_path fs =
        { installed := false, copied := false, fs := fs }) := by
  constructor
  · intro m hm hty hc hh
    have h := foldl_processMountEntry_mem comfyui_path cfg ([], fs) m hm hty hc hh
    unfold create_mounts_from_new_config
    constructor
    · simp only []
      split
      · exact List.mem_append_left _ h.1
      · exact h.1
    · simp only []
      split
      · exact h.2
      · exact h.2
  · intro m hns
    unfold process_copy_mount
    by_cases hmp : m.host_path = "" ∨ m.container_path = ""
    · rw [if_pos hmp]
    · rw [if_neg hmp, if_neg hns]

/-- Witness for the amended C3 theorem: a concrete mount entry yields its
bind spec and created path, and a copy entry with an absent source is
skipped without touching the filesystem. -/
theorem create_mounts_and_copy_realization_spec_witness :
    (({ target := "/app/ComfyUI/output",
        source := resolveSource "/b" "output",
        read_only := false } : MountSpec) ∈
      (create_mounts_from_new_config
        [{ container_path := "/app/ComfyUI/output", host_path := "output",
           type := "mount", read_only := false }] "/b" []).1) ∧
    process_copy_mount copyEntryC3 "/b" [] =
      { installed := false, copied := false, fs := [] } := by
  have h := create_mounts_and_copy_realization_spec
    [{ container_path := "/app/ComfyUI/output", host_path := "output",
       type := "mount", read_only := false }] "/b" []
  exact ⟨(h.1 { container_path := "/app/ComfyUI/output", host_path := "output",
                type := "mount", read_only := false }
            (by decide) (by decide) (by decide) (by decide)).1,
         h.2 copyEntryC3 (by decide)⟩

/-- Set a container's status in the runtime state; ids not present are
unaffected (no container is ever created by a status change). -/
def gwSet (gw : Gateway) (cid st : String) : Gateway :=
  gw.map (fun p => if p.1 = cid then (p.1, st) else p)

/-- `DockerInterface.stop_container`: a stopped Docker container reports
status `exited`. -/
def stop_container (gw : Gateway) (cid : String) : Gateway := gwSet gw cid "exited"

/-- `DockerInterface.start_container` (start when not already running):
the container ends up `running` either way. -/
def start_container (gw : Gateway) (cid : String) : Gateway := gwSet gw cid "running"

/-- `EnvironmentManager._update_environment`: replace the first record in
the list carrying the new record's id (the source raises when no record
matches; every call below passes a record found in the list). -/
def update_environment_list (x : Env) : List Env → List Env
  | [] => []
  | e :: es => if e.id = x.id then x :: es else e :: update_environment_list x es

/-- Outcome of `duplicate_environment`: the persisted registry, the
containers committed and created on the runtime, and the returned record
or error. -/
structure DupOutcome where
  registry : List Env
  commits : List String
  creates : List String
  result : Except String Env
deriving DecidableEq

/-- `EnvironmentManager.duplicate_environment` (comfydock_core lines
278-328; the comfy_env_core variant performs the same status check before
any commit or create).  The registry is first loaded, which reconciles and
persists statuses; a missing original or an original whose reconciled
status is `created` raises before the original container is committed or a
new container created.  `now` is the clock reading and `fresh` the
generated id suffix; the comfydock_core variant assigns the generated
container name as the new record's id. -/
def duplicate_environment (gw : Gateway) (regs : List Env) (env_id : String)
    (new_env : Env) (now : Nat) (fresh : String) : DupOutcome :=
  let envs := regs.map (reconcile gw)
  match envs.find? (fun e => e.id == env_id) with
  | none =>
    { registry := envs, commits := [], creates := [],
      result := .error "Environment not found" }
  | some original =>
    if original.status = "created" then
      { registry := envs, commits := [], creates := [],
        result := .error "Environment can only be duplicated after activation" }
    else
      { registry := envs ++
          [{ new_env with
               container_name := "comfy-env-" ++ fresh,
               id := "comfy-env-" ++ fresh,
               image := "comfy-env-clone:" ++ ("comfy-env-" ++ fresh),
               status := "created",
               duplicate := true,
               metadata := ("created_at", now) :: original.metadata }],
        commits := [env_id],
        creates := ["comfy-env-" ++ fresh],
        result := .ok
          { new_env with
              container_name := "comfy-env-" ++ fresh,
              id := "comfy-env-" ++ fresh,
              image := "comfy-env-clone:" ++ ("comfy-env-" ++ fresh),
              status := "created",
              duplicate := true,
              metadata := ("created_at", now) :: original.metadata } }

/-- C5: duplicating an environment whose reconciled status is `created`
raises a user-facing error, and on that error the registry keeps exactly
the reconciled records that the load persisted (no new record), no
container is committed, and no container is created. -/
theorem duplicate_created_rejected (gw : Gateway) (regs : List Env)
    (env_id : String) (new_env : Env) (now : Nat) (fresh : String) (orig : Env)
    (hfind : (regs.map (reconcile gw)).find? (fun e => e.id == env_id) = some orig)
    (hst : orig.status = "created") :
    duplicate_environment gw regs env_id new_env now fresh =
      { registry := regs.map (reconcile gw), commits := [], creates := [],
        result := .error "Environment can only be duplicated after activation" } := by
  simp only [duplicate_environment, hfind, if_pos hst]

/-- Registry record of the witness for C5: a never-activated environment. -/
def envW5 : Env :=
  { name := "b", image := "img", container_name := "n5", id := "c5",
    status := "", command := "", comfyui_path := "/h", duplicate := false,
    metadata := [], folderIds := [] }

/-- The C5 witness record after load's reconciliation. -/
def envW5r : Env := { envW5 with status := "created" }

/-- Witness for the C5 theorem: duplicating the freshly created `c5`
fails and leaves registry, commits and creates untouched. -/
theorem duplicate_created_rejected_witness :
    duplicate_environment [("c5", "created")] [envW5] "c5" envW5 7 "x" =
      { registry := [envW5r], commits := [], creates := [],
        result := .error "Environment can only be duplicated after activation" } :=
  (duplicate_created_rejected [("c5", "created")] [envW5] "c5" envW5 7 "x" envW5r
    (by decide) (by decide)).trans (by decide)

/-- `EnvironmentManager.deactivate_environment` (comfydock_core lines
406-419): after the load's reconciliation, the target's container is
fetched; when its live status is one of `stopped`, `exited`, `created`,
`dead` nothing further happens and the current record is returned;
otherwise the container is stopped, the record becomes `stopped` and the
collection is persisted. -/
def deactivate_environment (gw : Gateway) (regs : List Env) (env_id : String) :
    Except String (Gateway × List Env × Env) :=
  let envs := regs.map (reconcile gw)
  match envs.find? (fun e => e.id == env_id) with
  | none => .error "Environment not found"
  | some env =>
    match gw.lookup env.id with
    | none => .error ("Container " ++ env.id ++ " not found.")
    | some cst =>
      if cst = "stopped" ∨ cst = "exited" ∨ cst = "created" ∨ cst = "dead" then
        .ok (gw, envs, env)
      else
        .ok (stop_container gw env.id,
             update_environment_list { env with status := "stopped" } envs,
             { env with status := "stopped" })

/-- C7: deactivating an environment whose container is in a
stopped-equivalent state (`stopped`, `dead` or `created`) is a no-op: the
runtime is untouched (no stop call), the persisted registry is exactly the
reconciled collection the load already saved (deactivation changes no
status), and the current record is returned. -/
theorem deactivate_stopped_equivalent_noop (gw : Gateway) (regs : List Env)
    (env_id : String) (env : Env) (cst : String)
    (hfind : (regs.map (reconcile gw)).find? (fun e => e.id == env_id) = some env)
    (hst : gw.lookup env.id = some cst)
    (hcst : cst = "stopped" ∨ cst = "dead" ∨ cst = "created") :
    deactivate_environment gw regs env_id = .ok (gw, regs.map (reconcile gw), env) := by
  have hc : cst = "stopped" ∨ cst = "exited" ∨ cst = "created" ∨ cst = "dead" := by
    rcases hcst with h | h | h
    · exact Or.inl h
    · exact Or.inr (Or.inr (Or.inr h))
    · exact Or.inr (Or.inr (Or.inl h))
  simp only [deactivate_environment, hfind, hst, if_pos hc]

/-- Registry record of the witness for C7. -/
def envW7 : Env :=
  { name := "d", image := "img", container_name := "n7", id := "c7",
    status := "", command := "", comfyui_path := "/h", duplicate := false,
    metadata := [], folderIds := [] }

/-- Witness for the C7 theorem: deactivating an environment whose
container is live-`dead` changes nothing and returns the current record. -/
theorem deactivate_stopped_equivalent_noop_witness :
    deactivate_environment [("c7", "dead")] [envW7] "c7" =
      .ok ([("c7", "dead")], [{ envW7 with status := "dead" }],
           { envW7 with status := "dead" }) :=
  (deactivate_stopped_equivalent_noop [("c7", "dead")] [envW7] "c7"
    { envW7 with status := "dead" } "dead" (by decide) (by decide)
    (Or.inr (Or.inl rfl))).trans (by decide)

/-- The mutable-field subset accepted by `update_environment`
(`EnvironmentUpdate` pydantic model: optional name, optional folderIds). -/
structure EnvironmentUpdate where
  name : Option String
  folderIds : Option (List String)
deriving DecidableEq

/-- `EnvironmentManager.update_environment` (comfydock_core lines
330-351): after the load's reconciliation, a provided name replaces the
record's name — and when the record's container_name is empty
(`if not env.container_name`) the container_name is additionally set to
that new name — and provided folderIds replace the record's folderIds; the
updated record replaces the old one and the collection is persisted. -/
def update_environment (gw : Gateway) (regs : List Env) (env_id : String)
    (upd : EnvironmentUpdate) : Except String (List Env × Env) :=
  let envs := regs.map (reconcile gw)
  match envs.find? (fun e => e.id == env_id) with
  | none => .error ("Environment " ++ env_id ++ " not found")
  | some env =>
    let env1 :=
      match upd.name with
      | some n =>
        if env.container_name = "" then { env with name := n, container_name := n }
        else { env with name := n }
      | none => env
    let env2 :=
      match upd.folderIds with
      | some fids => { env1 with folderIds := fids }
      | none => env1
    .ok (update_environment_list env2 envs, env2)

/-- Container name of the record returned by `update_environment`, when
the call succeeded. -/
def updatedContainerNameOf (r : Except String (List Env × Env)) : Option String :=
  match r with
  | .ok p => some p.2.container_name
  | .error _ => none

/-- Registry record of the C8 counterexample: its container_name is the
empty string. -/
def envC8 : Env :=
  { name := "old", image := "img", container_name := "", id := "c8",
    status := "", command := "", comfyui_path := "/h", duplicate := false,
    metadata := [], folderIds := [] }

/-- C8 counterexample: updating the name of an environment whose
container_name is empty changes its container_name to the new name, so
`update_environment` does not always leave containerName unchanged. -/
theorem update_environment_changes_container_name :
    updatedContainerNameOf (update_environment [("c8", "exited")] [envC8] "c8"
      { name := some "fresh-name", folderIds := none }) = some "fresh-name" ∧
    envC8.container_name = "" := by
  constructor
  · decide
  · rfl

/-- C8 (amended): `update_environment` always leaves the record's id and
image unchanged; it leaves container_name unchanged whenever that field
was nonempty, but when the stored container_name is empty and a new name
is provided, the container_name is set to that name. -/
theorem update_environment_frame (gw : Gateway) (regs : List Env)
    (env_id : String) (upd : EnvironmentUpdate) (env : Env) (l : List Env) (e2 : Env)
    (hfind : (regs.map (reconcile gw)).find? (fun e => e.id == env_id) = some env)
    (hok : update_environment gw regs env_id upd = .ok (l, e2)) :
    e2.id = env.id ∧ e2.image = env.image ∧
    (env.container_name ≠ "" → e2.container_name = env.container_name) := by
  simp only [update_environment, hfind] at hok
  rcases upd with ⟨un, uf⟩
  cases un with
  | none =>
    cases uf with
    | none =>
      simp only [Except.ok.injEq, Prod.mk.injEq] at hok
      rw [← hok.2]
      exact ⟨rfl, rfl, fun _ => rfl⟩
    | some fids =>
      simp only [Except.ok.injEq, Prod.mk.injEq] at hok
      rw [← hok.2]
      exact ⟨rfl, rfl, fun _ => rfl⟩
  | some n =>
    by_cases hcn : env.container_name = ""
    · cases uf with
      | none =>
        simp only [if_pos hcn, Except.ok.injEq, Prod.mk.injEq] at hok
        rw [← hok.2]
        exact ⟨rfl, rfl, fun h => absurd hcn h⟩
      | some fids =>
        simp only [if_pos hcn, Except.ok.injEq, Prod.mk.injEq] at hok
        rw [← hok.2]
        exact ⟨rfl, rfl, fun h => absurd hcn h⟩
    · cases uf with
      | none =>
        simp only [if_neg hcn, Except.ok.injEq, Prod.mk.injEq] at hok
        rw [← hok.2]
        exact ⟨rfl, rfl, fun _ => rfl⟩
      | some fids =>
        simp only [if_neg hcn, Except.ok.injEq, Prod.mk.injEq] at hok
        rw [← hok.2]
        exact ⟨rfl, rfl, fun _ => rfl⟩

/-- Registry record of the witness for the amended C8 theorem: its
container_name is nonempty. -/
def envW8 : Env :=
  { name := "old", image := "img", container_name := "n8", id := "c8",
    status := "", command := "", comfyui_path := "/h", duplicate := false,
    metadata := [], folderIds := [] }

/-- Witness for the amended C8 theorem: renaming an environment with a
nonempty container_name leaves id, image and container_name unchanged. -/
theorem update_environment_frame_witness :
    ({ envW8 with status := "exited", name := "renamed" } : Env).id = "c8" ∧
    ({ envW8 with status := "exited", name := "renamed" } : Env).image = "img" ∧
    ({ envW8 with status := "exited", name := "renamed" } : Env).container_name = "n8" := by
  have h := update_environment_frame [("c8", "exited")] [envW8] "c8"
    { name := some "renamed", folderIds := none }
    { envW8 with status := "exited" }
    [{ envW8 with status := "exited", name := "renamed" }]
    { envW8 with status := "exited", name := "renamed" }
    (by decide) (by decide)
  exact ⟨h.1, h.2.1, h.2.2 (by decide)⟩

/-- Test for the soft-delete tag (`DELETED_FOLDER_ID in env.folderIds`). -/
def isDeletedTagged (e : Env) : Bool := decide (DELETED_FOLDER_ID ∈ e.folderIds)

/-- Deletion timestamp of a record, `env.metadata.get("deleted_at", 0)`. -/
def deletedAt (e : Env) : Nat := (e.metadata.lookup "deleted_at").getD 0

/-- Registry effect of `EnvironmentManager._hard_delete_environment`: the
record (any record with the same id) is removed from the collection; the
container stop/remove and best-effort image removal touch only the
runtime. -/
def hard_delete_registry (env : Env) (envs : List Env) : List Env :=
  envs.filter (fun e => decide (e.id ≠ env.id))

/-- Stable insertion of a record into a list sorted by deletion timestamp:
the record goes before the first strictly-later-or-equal position, keeping
equal timestamps in their original relative order, as Python's stable
`list.sort(key=...)` does. -/
def insertByDeletedAt (x : Env) : List Env → List Env
  | [] => [x]
  | y :: ys =>
    if deletedAt x ≤ deletedAt y then x :: y :: ys else y :: insertByDeletedAt x ys

/-- Stable sort by deletion timestamp (`deleted_envs.sort(key=...)`). -/
def sortByDeletedAt : List Env → List Env
  | [] => []
  | x :: xs => insertByDeletedAt x (sortByDeletedAt xs)

/-- `EnvironmentManager._prune_deleted_environments` (comfydock_core lines
452-472): when the deleted-tagged records exceed the maximum, sort them by
deletion timestamp and hard-delete the first `count - max` of them. -/
def prune_deleted_environments (envs : List Env) (max_deleted : Nat) : List Env :=
  let dels := envs.filter isDeletedTagged
  if dels.length ≤ max_deleted then envs
  else
    ((sortByDeletedAt dels).take (dels.length - max_deleted)).foldl
      (fun acc e => hard_delete_registry e acc) envs

/-- Membership in an insertion is membership in the inserted element or
the original list. -/
theorem mem_insertByDeletedAt (x y : Env) (l : List Env) :
    y ∈ insertByDeletedAt x l ↔ y = x ∨ y ∈ l := by
  induction l with
  | nil => simp [insertByDeletedAt]
  | cons a as ih =>
    unfold insertByDeletedAt
    split
    · simp [List.mem_cons]
    · simp only [List.mem_cons, ih]
      tauto

/-- Insertion permutes consing. -/
theorem insertByDeletedAt_perm (x : Env) (l : List Env) :
    List.Perm (insertByDeletedAt x l) (x :: l) := by
  induction l with
  | nil => exact List.Perm.refl _
  | cons a as ih =>
    unfold insertByDeletedAt
    split
    · exact List.Perm.refl _
    · exact (ih.cons a).trans (List.Perm.swap x a as)

/-- The timestamp sort is a permutation of its input. -/
theorem sortByDeletedAt_perm (l : List Env) : List.Perm (sortByDeletedAt l) l := by
  induction l with
  | nil => exact List.Perm.refl _
  | cons a as ih =>
    exact (insertByDeletedAt_perm a (sortByDeletedAt as)).trans (ih.cons a)

/-- Insertion preserves sortedness by deletion timestamp. -/
theorem pairwise_insertByDeletedAt (x : Env) (l : List Env)
    (h : l.Pairwise (fun a b => deletedAt a ≤ deletedAt b)) :
    (insertByDeletedAt x l).Pairwise (fun a b => deletedAt a ≤ deletedAt b) := by
  induction l with
  | nil => simp [insertByDeletedAt]
  | cons a as ih =>
    rcases List.pairwise_cons.mp h with ⟨ha, has⟩
    unfold insertByDeletedAt
    split
    · rename_i hle
      refine List.pairwise_cons.mpr ⟨?_, h⟩
      intro b hb
      rcases List.mem_cons.mp hb with hba | hbs
      · rw [hba]
        exact hle
      · exact le_trans hle (ha b hbs)
    · rename_i hgt
      have hax : deletedAt a ≤ deletedAt x := le_of_not_le hgt
      refine List.pairwise_cons.mpr ⟨?_, ih has⟩
      intro b hb
      rcases (mem_insertByDeletedAt x b as).mp hb with hbx | hbs
      · rw [hbx]
        exact hax
      · exact ha b hbs

/-- The timestamp sort is sorted (pairwise non-decreasing timestamps). -/
theorem pairwise_sortByDeletedAt (l : List Env) :
    (sortByDeletedAt l).Pairwise (fun a b => deletedAt a ≤ deletedAt b) := by
  induction l with
  | nil => exact List.Pairwise.nil
  | cons a as ih => exact pairwise_insertByDeletedAt a _ ih

/-- Folding hard deletes over a worklist filters out every id of the
worklist. -/
theorem foldl_hard_delete_eq_filter (l envs : List Env) :
    l.foldl (fun acc e => hard_delete_registry e acc) envs =
      envs.filter (fun x => l.all (fun e => decide (x.id ≠ e.id))) := by
  induction l generalizing envs with
  | nil => simp
  | cons e rest ih =>
    simp only [List.foldl_cons]
    rw [ih]
    simp only [hard_delete_registry, List.filter_filter]
    congr 1
    funext x
    simp only [List.all_cons]
    rw [Bool.and_comm]

/-- Pruning with the count already within the limit changes nothing. -/
theorem prune_deleted_noop (envs : List Env) (max_deleted : Nat)
    (h : (envs.filter isDeletedTagged).length ≤ max_deleted) :
    prune_deleted_environments envs max_deleted = envs := by
  simp only [prune_deleted_environments]
  rw [if_pos h]

/-- Pruning above the limit filters away the ids of the oldest excess
deleted records. -/
theorem prune_deleted_eq_filter (envs : List Env) (max_deleted : Nat)
    (h : ¬ (envs.filter isDeletedTagged).length ≤ max_deleted) :
    prune_deleted_environments envs max_deleted =
      envs.filter (fun x =>
        ((sortByDeletedAt (envs.filter isDeletedTagged)).take
            ((envs.filter isDeletedTagged).length - max_deleted)).all
          (fun e => decide (x.id ≠ e.id))) := by
  simp only [prune_deleted_environments]
  rw [if_neg h, foldl_hard_delete_eq_filter]

/-- An element of the prune worklist is a deleted-tagged record of the
registry. -/
theorem mem_take_sort (envs : List Env) (k : Nat) (e : Env)
    (he : e ∈ (sortByDeletedAt (envs.filter isDeletedTagged)).take k) :
    e ∈ envs ∧ isDeletedTagged e = true := by
  have h1 : e ∈ sortByDeletedAt (envs.filter isDeletedTagged) :=
    List.mem_of_mem_take he
  have h2 : e ∈ envs.filter isDeletedTagged :=
    (sortByDeletedAt_perm _).mem_iff.mp h1
  exact ⟨(List.mem_filter.mp h2).1, (List.mem_filter.mp h2).2⟩

/-- The sorted deleted-tagged records of an id-unique registry have no
duplicates. -/
theorem nodup_sortByDeletedAt (envs : List Env)
    (hids : (envs.map Env.id).Nodup) :
    (sortByDeletedAt (envs.filter isDeletedTagged)).Nodup :=
  ((sortByDeletedAt_perm _).nodup_iff).mpr
    ((List.Nodup.of_map Env.id hids).filter _)

/-- Filtering a list splits across its take/drop decomposition. -/
theorem filter_split (p : Env → Bool) (l : List Env) (k : Nat) :
    l.filter p = (l.take k).filter p ++ (l.drop k).filter p := by
  conv_lhs => rw [← List.take_append_drop k l]
  rw [List.filter_append]

/-- Above the limit, pruning leaves exactly `max_deleted` deleted-tagged
records (for an id-unique registry). -/
theorem prune_deleted_count (envs : List Env) (max_deleted : Nat)
    (hids : (envs.map Env.id).Nodup)
    (hlt : max_deleted < (envs.filter isDeletedTagged).length) :
    ((prune_deleted_environments envs max_deleted).filter isDeletedTagged).length
      = max_deleted := by
  have hnle : ¬ (envs.filter isDeletedTagged).length ≤ max_deleted := not_le.mpr hlt
  rw [prune_deleted_eq_filter envs max_deleted hnle, List.filter_filter]
  have hswap : envs.filter (fun a => isDeletedTagged a &&
        ((sortByDeletedAt (envs.filter isDeletedTagged)).take
            ((envs.filter isDeletedTagged).length - max_deleted)).all
          (fun e => decide (a.id ≠ e.id))) =
      (envs.filter isDeletedTagged).filter (fun a =>
        ((sortByDeletedAt (envs.filter isDeletedTagged)).take
            ((envs.filter isDeletedTagged).length - max_deleted)).all
          (fun e => decide (a.id ≠ e.id))) := by
    rw [List.filter_filter]
    congr 1
    funext a
    rw [Bool.and_comm]
  rw [hswap]
  have hlenp := ((sortByDeletedAt_perm (envs.filter isDeletedTagged)).symm.filter
    (fun a =>
      ((sortByDeletedAt (envs.filter isDeletedTagged)).take
          ((envs.filter isDeletedTagged).length - max_deleted)).all
        (fun e => decide (a.id ≠ e.id)))).length_eq
  rw [hlenp]
  have hnd := nodup_sortByDeletedAt envs hids
  have hdisj := List.disjoint_of_nodup_append
    (show ((sortByDeletedAt (envs.filter isDeletedTagged)).take
        ((envs.filter isDeletedTagged).length - max_deleted) ++
      (sortByDeletedAt (envs.filter isDeletedTagged)).drop
        ((envs.filter isDeletedTagged).length - max_deleted)).Nodup from by
      rw [List.take_append_drop]
      exact hnd)
  have h1 : ((sortByDeletedAt (envs.filter isDeletedTagged)).take
        ((envs.filter isDeletedTagged).length - max_deleted)).filter
      (fun a =>
        ((sortByDeletedAt (envs.filter isDeletedTagged)).take
            ((envs.filter isDeletedTagged).length - max_deleted)).all
          (fun e => decide (a.id ≠ e.id))) = [] := by
    rw [List.filter_eq_nil_iff]
    intro e he hP
    have := List.all_eq_true.mp hP e he
    simp at this
  have h2 : ((sortByDeletedAt (envs.filter isDeletedTagged)).drop
        ((envs.filter isDeletedTagged).length - max_deleted)).filter
      (fun a =>
        ((sortByDeletedAt (envs.filter isDeletedTagged)).take
            ((envs.filter isDeletedTagged).length - max_deleted)).all
          (fun e => decide (a.id ≠ e.id))) =
      (sortByDeletedAt (envs.filter isDeletedTagged)).drop
        ((envs.filter isDeletedTagged).length - max_deleted) := by
    rw [List.filter_eq_self]
    intro y hy
    rw [List.all_eq_true]
    intro e he
    simp only [decide_eq_true_eq]
    intro heq
    have hyenvs : y ∈ envs := by
      have hys : y ∈ sortByDeletedAt (envs.filter isDeletedTagged) :=
        List.mem_of_mem_drop hy
      exact (List.mem_filter.mp ((sortByDeletedAt_perm _).mem_iff.mp hys)).1
    have heenvs : e ∈ envs := (mem_take_sort envs _ e he).1
    have hye : y = e := List.inj_on_of_nodup_map hids hyenvs heenvs heq
    subst hye
    exact hdisj he hy
  rw [filter_split _ _ ((envs.filter isDeletedTagged).length - max_deleted),
    h1, h2, List.nil_append, List.length_drop,
    (sortByDeletedAt_perm (envs.filter isDeletedTagged)).length_eq]
  omega

/-- A record of an id-unique registry that pruning removed is one of the
oldest excess deleted-tagged records. -/
theorem prune_removed_mem_take (envs : List Env) (max_deleted : Nat)
    (hids : (envs.map Env.id).Nodup)
    (hnle : ¬ (envs.filter isDeletedTagged).length ≤ max_deleted)
    (x : Env) (hx : x ∈ envs)
    (hnotin : x ∉ prune_deleted_environments envs max_deleted) :
    x ∈ (sortByDeletedAt (envs.filter isDeletedTagged)).take
        ((envs.filter isDeletedTagged).length - max_deleted) := by
  rw [prune_deleted_eq_filter envs max_deleted hnle] at hnotin
  by_contra hnt
  apply hnotin
  rw [List.mem_filter]
  refine ⟨hx, ?_⟩
  rw [List.all_eq_true]
  intro e he
  simp only [decide_eq_true_eq]
  intro heq
  have he2 := mem_take_sort envs _ e he
  have hxe : x = e := List.inj_on_of_nodup_map hids hx he2.1 heq
  subst hxe
  exact hnt he

/-- Every record pruning removes is deleted-tagged, and its deletion
timestamp is at most that of every deleted-tagged record pruning keeps. -/
theorem prune_removed_oldest (envs : List Env) (max_deleted : Nat)
    (hids : (envs.map Env.id).Nodup) :
    ∀ x ∈ envs, x ∉ prune_deleted_environments envs max_deleted →
      isDeletedTagged x = true ∧
      ∀ y ∈ prune_deleted_environments envs max_deleted,
        isDeletedTagged y = true → deletedAt x ≤ deletedAt y := by
  intro x hx hnotin
  by_cases hle : (envs.filter isDeletedTagged).length ≤ max_deleted
  · rw [prune_deleted_noop envs max_deleted hle] at hnotin
    exact absurd hx hnotin
  · have hxt := prune_removed_mem_take envs max_deleted hids hle x hx hnotin
    refine ⟨(mem_take_sort envs _ x hxt).2, ?_⟩
    intro y hy hytag
    rw [prune_deleted_eq_filter envs max_deleted hle, List.mem_filter] at hy
    have hyenvs : y ∈ envs := hy.1
    have hysort : y ∈ sortByDeletedAt (envs.filter isDeletedTagged) :=
      (sortByDeletedAt_perm _).mem_iff.mpr
        (List.mem_filter.mpr ⟨hyenvs, hytag⟩)
    have hynt : y ∉ (sortByDeletedAt (envs.filter isDeletedTagged)).take
        ((envs.filter isDeletedTagged).length - max_deleted) := by
      intro hyt
      have := List.all_eq_true.mp hy.2 y hyt
      simp at this
    have hyd : y ∈ (sortByDeletedAt (envs.filter isDeletedTagged)).drop
        ((envs.filter isDeletedTagged).length - max_deleted) := by
      rcases List.mem_append.mp (by
        rw [List.take_append_drop]
        exact hysort :
          y ∈ (sortByDeletedAt (envs.filter isDeletedTagged)).take
              ((envs.filter isDeletedTagged).length - max_deleted) ++
            (sortByDeletedAt (envs.filter isDeletedTagged)).drop
              ((envs.filter isDeletedTagged).length - max_deleted)) with h | h
      · exact absurd h hynt
      · exact h
    have hpw := pairwise_sortByDeletedAt (envs.filter isDeletedTagged)
    have hsplit := List.pairwise_append.mp (by
      rw [List.take_append_drop]
      exact hpw :
        ((sortByDeletedAt (envs.filter isDeletedTagged)).take
            ((envs.filter isDeletedTagged).length - max_deleted) ++
          (sortByDeletedAt (envs.filter isDeletedTagged)).drop
            ((envs.filter isDeletedTagged).length - max_deleted)).Pairwise
          (fun a b => deletedAt a ≤ deletedAt b))
    exact hsplit.2.2 x hxt y hyd

/-- Above the limit, pruning an id-unique registry removes exactly
`count - max_deleted` records. -/
theorem prune_deleted_length (envs : List Env) (max_deleted : Nat)
    (hids : (envs.map Env.id).Nodup)
    (hlt : max_deleted < (envs.filter isDeletedTagged).length) :
    (prune_deleted_environments envs max_deleted).length =
      envs.length - ((envs.filter isDeletedTagged).length - max_deleted) := by
  have hnle : ¬ (envs.filter isDeletedTagged).length ≤ max_deleted := not_le.mpr hlt
  rw [prune_deleted_eq_filter envs max_deleted hnle]
  have hsum := (List.filter_append_perm (fun x =>
    ((sortByDeletedAt (envs.filter isDeletedTagged)).take
        ((envs.filter isDeletedTagged).length - max_deleted)).all
      (fun e => decide (x.id ≠ e.id))) envs).length_eq
  rw [List.length_append] at hsum
  have hnodup1 : (envs.filter (fun x => !(((sortByDeletedAt
      (envs.filter isDeletedTagged)).take
        ((envs.filter isDeletedTagged).length - max_deleted)).all
      (fun e => decide (x.id ≠ e.id))))).Nodup :=
    (List.Nodup.of_map Env.id hids).filter _
  have hnodup2 : ((sortByDeletedAt (envs.filter isDeletedTagged)).take
      ((envs.filter isDeletedTagged).length - max_deleted)).Nodup :=
    (List.take_sublist _ _).nodup (nodup_sortByDeletedAt envs hids)
  have hfin : (envs.filter (fun x => !(((sortByDeletedAt
      (envs.filter isDeletedTagged)).take
        ((envs.filter isDeletedTagged).length - max_deleted)).all
      (fun e => decide (x.id ≠ e.id))))).toFinset =
      ((sortByDeletedAt (envs.filter isDeletedTagged)).take
        ((envs.filter isDeletedTagged).length - max_deleted)).toFinset := by
    apply Finset.ext
    intro a
    rw [List.mem_toFinset, List.mem_toFinset, List.mem_filter]
    constructor
    · rintro ⟨haenvs, hna⟩
      rw [Bool.not_eq_true'] at hna
      have hex : ¬ ∀ e ∈ (sortByDeletedAt (envs.filter isDeletedTagged)).take
          ((envs.filter isDeletedTagged).length - max_deleted),
            decide (a.id ≠ e.id) = true := by
        intro hall
        rw [← List.all_eq_true] at hall
        rw [hall] at hna
        cases hna
      rcases not_forall.mp hex with ⟨e, hne⟩
      rcases Classical.not_imp.mp hne with ⟨hemem, hneq⟩
      have heq : a.id = e.id := by
        by_contra hc
        exact hneq (decide_eq_true hc)
      have hae : a = e :=
        List.inj_on_of_nodup_map hids haenvs (mem_take_sort envs _ e hemem).1 heq
      rw [hae]
      exact hemem
    · intro ha
      refine ⟨(mem_take_sort envs _ a ha).1, ?_⟩
      rw [Bool.not_eq_true']
      rw [← Bool.not_eq_true]
      intro hall
      have := List.all_eq_true.mp hall a ha
      simp at this
  have hperm := List.perm_of_nodup_nodup_toFinset_eq hnodup1 hnodup2 hfin
  rw [hperm.length_eq] at hsum
  rw [List.length_take,
    (sortByDeletedAt_perm (envs.filter isDeletedTagged)).length_eq] at hsum
  omega

/-- First deleted-tagged record of the C4 concrete instance, timestamp 1. -/
def exD1 : Env :=
  { name := "p1", image := "img", container_name := "m1", id := "d1",
    status := "dead", command := "", comfyui_path := "/h", duplicate := false,
    metadata := [("deleted_at", 1)], folderIds := ["deleted"] }

/-- Second deleted-tagged record of the C4 concrete instance, timestamp 2. -/
def exD2 : Env :=
  { name := "p2", image := "img", container_name := "m2", id := "d2",
    status := "dead", command := "", comfyui_path := "/h", duplicate := false,
    metadata := [("deleted_at", 2)], folderIds := ["deleted"] }

/-- Third deleted-tagged record of the C4 concrete instance, timestamp 3. -/
def exD3 : Env :=
  { name := "p3", image := "img", container_name := "m3", id := "d3",
    status := "dead", command := "", comfyui_path := "/h", duplicate := false,
    metadata := [("deleted_at", 3)], folderIds := ["deleted"] }

/-- C4: for an id-unique registry, pruning leaves at most `max_deleted`
deleted-tagged records; every removed record is deleted-tagged with a
deletion timestamp at most that of every kept deleted-tagged record;
above the limit exactly the excess count is removed; and for
`max_deleted = 2` with deleted records timestamped 1, 2, 3, pruning
removes exactly the record timestamped 1. -/
theorem prune_deleted_spec (envs : List Env) (max_deleted : Nat)
    (hids : (envs.map Env.id).Nodup) :
    ((prune_deleted_environments envs max_deleted).filter isDeletedTagged).length
        ≤ max_deleted ∧
    (∀ x ∈ envs, x ∉ prune_deleted_environments envs max_deleted →
      isDeletedTagged x = true ∧
      ∀ y ∈ prune_deleted_environments envs max_deleted,
        isDeletedTagged y = true → deletedAt x ≤ deletedAt y) ∧
    (max_deleted < (envs.filter isDeletedTagged).length →
      (prune_deleted_environments envs max_deleted).length =
        envs.length - ((envs.filter isDeletedTagged).length - max_deleted)) ∧
    prune_deleted_environments [exD1, exD2, exD3] 2 = [exD2, exD3] := by
  refine ⟨?_, prune_removed_oldest envs max_deleted hids,
          fun h => prune_deleted_length envs max_deleted hids h, by decide⟩
  by_cases hle : (envs.filter isDeletedTagged).length ≤ max_deleted
  · rw [prune_deleted_noop envs max_deleted hle]
    exact hle
  · exact le_of_eq (prune_deleted_count envs max_deleted hids (not_le.mp hle))

/-- Witness for the C4 theorem at the concrete three-record instance:
with `max_deleted = 2` and timestamps 1, 2, 3, exactly the record
timestamped 1 is removed. -/
theorem prune_deleted_spec_witness :
    prune_deleted_environments [exD1, exD2, exD3] 2 = [exD2, exD3] :=
  (prune_deleted_spec [exD1, exD2, exD3] 2 (by decide)).2.2.2

/-- New record written by the soft-delete branch of `delete_environment`:
the folder list is replaced by the single deleted tag and the deletion
timestamp is recorded in the metadata. -/
def soft_delete_env (env : Env) (now : Nat) : Env :=
  { env with folderIds := [DELETED_FOLDER_ID],
             metadata := ("deleted_at", now) :: env.metadata }

/-- `EnvironmentManager.delete_environment` (comfydock_core lines
474-492): after the load's reconciliation, an already-tagged record is
hard-deleted (registry effect: the record is removed); otherwise the
record's folder list becomes exactly the deleted tag, the deletion
timestamp is recorded, and pruning runs before the collection is
persisted. -/
def delete_environment (gw : Gateway) (regs : List Env) (env_id : String)
    (max_deleted : Nat) (now : Nat) : Except String (List Env) :=
  let envs := regs.map (reconcile gw)
  match envs.find? (fun e => e.id == env_id) with
  | none => .error ("Environment " ++ env_id ++ " not found")
  | some env =>
    if DELETED_FOLDER_ID ∈ env.folderIds then
      .ok (hard_delete_registry env envs)
    else
      .ok (prune_deleted_environments
            (update_environment_list (soft_delete_env env now) envs) max_deleted)

/-- Replacing a record whose id occurs in the list puts the new record in
the list. -/
theorem mem_update_environment_list (x : Env) (l : List Env) (e : Env)
    (he : e ∈ l) (hid : e.id = x.id) : x ∈ update_environment_list x l := by
  induction l with
  | nil => cases he
  | cons a as ih =>
    unfold update_environment_list
    by_cases h : a.id = x.id
    · rw [if_pos h]
      exact List.mem_cons_self _ _
    · rw [if_neg h]
      rcases List.mem_cons.mp he with hea | hmem
      · rw [hea] at hid
        exact absurd hid h
      · exact List.mem_cons_of_mem _ (ih hmem)

/-- C10: soft-deleting an environment not yet tagged replaces its entire
folder list with exactly the deleted tag — previous memberships are
discarded, not supplemented — and records the deletion timestamp in its
metadata; the registry handed to pruning and persisted carries that
record, and within the deletion limit pruning leaves it untouched. -/
theorem delete_soft_replaces_folderIds (gw : Gateway) (regs : List Env)
    (env_id : String) (max_deleted now : Nat) (env : Env)
    (hfind : (regs.map (reconcile gw)).find? (fun e => e.id == env_id) = some env)
    (hnot : DELETED_FOLDER_ID ∉ env.folderIds)
    (hcount : ((update_environment_list (soft_delete_env env now)
        (regs.map (reconcile gw))).filter isDeletedTagged).length ≤ max_deleted) :
    delete_environment gw regs env_id max_deleted now =
      .ok (update_environment_list (soft_delete_env env now)
            (regs.map (reconcile gw))) ∧
    soft_delete_env env now ∈
      update_environment_list (soft_delete_env env now) (regs.map (reconcile gw)) ∧
    (soft_delete_env env now).folderIds = [DELETED_FOLDER_ID] ∧
    (soft_delete_env env now).metadata.lookup "deleted_at" = some now := by
  refine ⟨?_, ?_, rfl, ?_⟩
  · simp only [delete_environment, hfind]
    rw [if_neg hnot, prune_deleted_noop _ _ hcount]
  · exact mem_update_environment_list _ _ env
      (List.mem_of_find?_eq_some hfind) rfl
  · simp [soft_delete_env, List.lookup]

/-- Registry record of the C10 witness: a member of an ordinary folder. -/
def envW10 : Env :=
  { name := "t", image := "img", container_name := "n10", id := "c10",
    status := "", command := "", comfyui_path := "/h", duplicate := false,
    metadata := [("created_at", 3)], folderIds := ["general"] }

/-- Witness for the C10 theorem: soft-deleting a record that lived in the
folder `general` leaves it with exactly the deleted tag and timestamp 9. -/
theorem delete_soft_replaces_folderIds_witness :
    (soft_delete_env { envW10 with status := "exited" } 9).folderIds =
      [DELETED_FOLDER_ID] ∧
    (soft_delete_env { envW10 with status := "exited" } 9).metadata.lookup
      "deleted_at" = some 9 :=
  have h := delete_soft_replaces_folderIds [("c10", "exited")] [envW10] "c10" 10 9
    { envW10 with status := "exited" } (by decide) (by decide) (by decide)
  ⟨h.2.2.1, h.2.2.2⟩

/-- `DockerInterface.restart_container`: a restarted container ends up
running. -/
def restart_container (gw : Gateway) (cid : String) : Gateway := gwSet gw cid "running"

/-- Head equation of `gwSet`. -/
theorem gwSet_cons (k v cid st : String) (rest : Gateway) :
    gwSet ((k, v) :: rest) cid st =
      (if k = cid then (k, st) else (k, v)) :: gwSet rest cid st := rfl

/-- Lookup after a status update: only the updated id changes, and only
when it was present. -/
theorem lookup_gwSet (gw : Gateway) (cid st x : String) :
    (gwSet gw cid st).lookup x =
      if x = cid then (gw.lookup x).map (fun _ => st) else gw.lookup x := by
  induction gw with
  | nil => simp [gwSet]
  | cons p rest ih =>
    rcases p with ⟨k, v⟩
    rw [gwSet_cons]
    by_cases hx : x = k
    · have hbk : (x == k) = true := beq_iff_eq.mpr hx
      by_cases hkc : k = cid
      · rw [if_pos hkc]
        simp only [List.lookup_cons, hbk]
        rw [if_pos (hx.trans hkc)]
        rfl
      · rw [if_neg hkc]
        simp only [List.lookup_cons, hbk]
        rw [if_neg (fun h => hkc (hx.symm.trans h))]
    · have hbk : (x == k) = false := by
        rw [beq_eq_false_iff_ne]
        exact hx
      by_cases hkc : k = cid
      · rw [if_pos hkc]
        simp only [List.lookup_cons, hbk]
        exact ih
      · rw [if_neg hkc]
        simp only [List.lookup_cons, hbk]
        exact ih

/-- A record's id is untouched by reconciliation. -/
theorem reconcile_id (gw : Gateway) (r : Env) : (reconcile gw r).id = r.id := by
  unfold reconcile
  cases gw.lookup r.id <;> rfl

/-- A found container's status is copied verbatim by reconciliation. -/
theorem reconcile_status_of_lookup (gw : Gateway) (r : Env) (s : String)
    (h : gw.lookup r.id = some s) : (reconcile gw r).status = s := by
  unfold reconcile
  rw [h]

/-- Reconciliation preserves the id sequence of the registry. -/
theorem reconcile_map_id (gw : Gateway) (regs : List Env) :
    (regs.map (reconcile gw)).map Env.id = regs.map Env.id := by
  rw [List.map_map]
  exact List.map_congr_left (fun r _ => reconcile_id gw r)

/-- Replacing a record by one with the same id preserves the id sequence. -/
theorem update_environment_list_map_id (x : Env) (l : List Env) :
    (update_environment_list x l).map Env.id = l.map Env.id := by
  induction l with
  | nil => rfl
  | cons a as ih =>
    unfold update_environment_list
    split
    · rename_i h
      simp [List.map_cons, h]
    · simp [List.map_cons, ih]

/-- A member of the replaced list is the new record or an original one. -/
theorem mem_update_environment_list_elim (x y : Env) (l : List Env)
    (h : y ∈ update_environment_list x l) : y = x ∨ y ∈ l := by
  induction l with
  | nil => cases h
  | cons a as ih =>
    unfold update_environment_list at h
    split at h
    · rcases List.mem_cons.mp h with h1 | h1
      · exact Or.inl h1
      · exact Or.inr (List.mem_cons_of_mem _ h1)
    · rcases List.mem_cons.mp h with h1 | h1
      · rw [h1]
        exact Or.inr (List.mem_cons_self _ _)
      · rcases ih h1 with h2 | h2
        · exact Or.inl h2
        · exact Or.inr (List.mem_cons_of_mem _ h2)

/-- `EnvironmentManager._stop_other_environments` (comfydock_core lines
353-371): walk the reconciled records sequentially; each record other
than the target whose status is `running` has its container stopped; a
container that is already gone (not found) is only warned about and the
walk continues with the rest. -/
def stop_other_environments : Gateway → List Env → String → Gateway
  | gw, [], _ => gw
  | gw, e :: es, target =>
    stop_other_environments
      (if e.id ≠ target ∧ e.status = "running" then
        match gw.lookup e.id with
        | some _ => stop_container gw e.id
        | none => gw
      else gw) es target

/-- The stop loop never makes a container run: a container running after
the loop was running before it. -/
theorem stop_other_lookup_running (gw : Gateway) (envs : List Env)
    (target x : String)
    (h : (stop_other_environments gw envs target).lookup x = some "running") :
    gw.lookup x = some "running" := by
  induction envs generalizing gw with
  | nil => exact h
  | cons e es ih =>
    unfold stop_other_environments at h
    have h2 := ih _ h
    by_cases hc : e.id ≠ target ∧ e.status = "running"
    · rw [if_pos hc] at h2
      cases hl : gw.lookup e.id with
      | none =>
        rw [hl] at h2
        exact h2
      | some s =>
        rw [hl] at h2
        simp only [stop_container, lookup_gwSet] at h2
        by_cases hx : x = e.id
        · rw [if_pos hx] at h2
          cases hgx : gw.lookup x with
          | none =>
            rw [hgx] at h2
            cases h2
          | some t =>
            rw [hgx, Option.map_some'] at h2
            exact absurd (Option.some.inj h2) (by decide)
        · rw [if_neg hx] at h2
          exact h2
    · rw [if_neg hc] at h2
      exact h2

/-- After the stop loop, the container of every non-target record whose
reconciled status was `running` is no longer reported running. -/
theorem stop_other_stops (gw : Gateway) (envs : List Env) (target : String)
    (e : Env) (he : e ∈ envs) (hne : e.id ≠ target) (hst : e.status = "running") :
    (stop_other_environments gw envs target).lookup e.id ≠ some "running" := by
  induction envs generalizing gw with
  | nil => cases he
  | cons a as ih =>
    unfold stop_other_environments
    rcases List.mem_cons.mp he with hea | hmem
    · rw [← hea, if_pos ⟨hne, hst⟩]
      cases hl : gw.lookup e.id with
      | none =>
        intro hcon
        have hrun := stop_other_lookup_running _ _ _ _ hcon
        rw [hl] at hrun
        cases hrun
      | some s =>
        intro hcon
        have hrun := stop_other_lookup_running _ _ _ _ hcon
        simp only [stop_container, lookup_gwSet, if_pos rfl] at hrun
        rw [hl, Option.map_some'] at hrun
        exact absurd (Option.some.inj hrun) (by decide)
    · exact ih _ hmem

/-- `EnvironmentManager.activate_environment` (comfydock_core lines
373-404): load (reconcile and persist), find the target, fetch its
container (not-found propagates), stop all other running environments
unless multiple are allowed, start the target; when the target was
`created`, copy-type content is injected and — when the copy reports
installed custom nodes (`installed_nodes`, a fact of the host content) —
the container is restarted; the target's record becomes `running` and the
collection is persisted. -/
def activate_environment (gw : Gateway) (regs : List Env) (env_id : String)
    (allow_multiple : Bool) (installed_nodes : Bool) :
    Except String (Gateway × List Env × Env) :=
  let envs := regs.map (reconcile gw)
  match envs.find? (fun e => e.id == env_id) with
  | none => .error ("Environment " ++ env_id ++ " not found")
  | some env =>
    match gw.lookup env.id with
    | none => .error ("Container " ++ env.id ++ " not found.")
    | some _ =>
      let gw1 := if allow_multiple then gw else stop_other_environments gw envs env_id
      let gw2 := start_container gw1 env.id
      let gw3 :=
        if env.status = "created" ∧ installed_nodes then restart_container gw2 env.id
        else gw2
      .ok (gw3, update_environment_list { env with status := "running" } envs,
           { env with status := "running" })

/-- C6: after a successful activation with `allow_multiple = false`, only
the target's container can be reported running among the persisted
records — every other environment that was running was stopped first, a
sibling whose container is already gone being skipped without aborting
the loop — and with unique registry ids at most one environment runs. -/
theorem activate_single_running (gw : Gateway) (regs : List Env)
    (env_id : String) (installed_nodes : Bool) (gw3 : Gateway)
    (envs' : List Env) (envr : Env)
    (hok : activate_environment gw regs env_id false installed_nodes =
      .ok (gw3, envs', envr)) :
    (∀ e ∈ envs', gw3.lookup e.id = some "running" → e.id = env_id) ∧
    ((regs.map Env.id).Nodup →
      (envs'.filter (fun e => gw3.lookup e.id == some "running")).length ≤ 1) := by
  simp only [activate_environment] at hok
  cases hfind : (regs.map (reconcile gw)).find? (fun e => e.id == env_id) with
  | none =>
    simp only [hfind] at hok
    cases hok
  | some env =>
  simp only [hfind] at hok
  cases hlk : gw.lookup env.id with
  | none =>
    simp only [hlk] at hok
    cases hok
  | some s =>
  simp only [hlk] at hok
  rw [if_neg Bool.false_ne_true] at hok
  simp only [Except.ok.injEq, Prod.mk.injEq] at hok
  obtain ⟨hgw3, henvs, henv⟩ := hok
  subst hgw3
  subst henvs
  subst henv
  have henvid : env.id = env_id := by
    have hp := List.find?_some hfind
    rwa [beq_iff_eq] at hp
  have hone : ∀ e ∈ update_environment_list { env with status := "running" }
      (regs.map (reconcile gw)),
      (if env.status = "created" ∧ installed_nodes = true then
        restart_container
          (start_container (stop_other_environments gw
            (regs.map (reconcile gw)) env_id) env.id) env.id
      else
        start_container (stop_other_environments gw
          (regs.map (reconcile gw)) env_id) env.id).lookup e.id =
        some "running" → e.id = env_id := by
    intro e he hrun
    by_contra hne
    rcases mem_update_environment_list_elim _ e _ he with he1 | he2
    · apply hne
      rw [he1]
      exact henvid
    · have hne' : e.id ≠ env.id := by
        rw [henvid]
        exact hne
      have hrun1 : (stop_other_environments gw (regs.map (reconcile gw))
          env_id).lookup e.id = some "running" := by
        rcases ite_eq_or_eq (env.status = "created" ∧ installed_nodes = true)
          (restart_container
            (start_container (stop_other_environments gw
              (regs.map (reconcile gw)) env_id) env.id) env.id)
          (start_container (stop_other_environments gw
            (regs.map (reconcile gw)) env_id) env.id) with hcase | hcase
        · rw [hcase] at hrun
          simp only [restart_container, start_container, lookup_gwSet,
            if_neg hne'] at hrun
          exact hrun
        · rw [hcase] at hrun
          simp only [start_container, lookup_gwSet, if_neg hne'] at hrun
          exact hrun
      have hgwrun : gw.lookup e.id = some "running" :=
        stop_other_lookup_running _ _ _ _ hrun1
      rcases List.mem_map.mp he2 with ⟨r, hr, hrec⟩
      have hrid : r.id = e.id := by
        rw [← hrec, reconcile_id]
      have hestatus : e.status = "running" := by
        rw [← hrec]
        apply reconcile_status_of_lookup
        rw [hrid]
        exact hgwrun
      exact stop_other_stops gw (regs.map (reconcile gw)) env_id e he2 hne
        hestatus hrun1
  refine ⟨hone, ?_⟩
  intro hnd
  have hc1 : List.countP (fun e =>
      (if env.status = "created" ∧ installed_nodes = true then
        restart_container
          (start_container (stop_other_environments gw
            (regs.map (reconcile gw)) env_id) env.id) env.id
      else
        start_container (stop_other_environments gw
          (regs.map (reconcile gw)) env_id) env.id).lookup e.id ==
        some "running")
      (update_environment_list { env with status := "running" }
        (regs.map (reconcile gw))) ≤
      List.countP (fun e => e.id == env_id)
      (update_environment_list { env with status := "running" }
        (regs.map (reconcile gw))) := by
    apply List.countP_mono_left
    intro e he hp
    rw [beq_iff_eq]
    refine hone e he ?_
    rwa [beq_iff_eq] at hp
  have hc2 : List.countP (fun e => e.id == env_id)
      (update_environment_list { env with status := "running" }
        (regs.map (reconcile gw))) =
      List.count env_id ((update_environment_list { env with status := "running" }
        (regs.map (reconcile gw))).map Env.id) := by
    rw [List.count_eq_countP, List.countP_map]
    rfl
  have hids2 : ((update_environment_list { env with status := "running" }
      (regs.map (reconcile gw))).map Env.id).Nodup := by
    rw [update_environment_list_map_id, reconcile_map_id]
    exact hnd
  have hcount := List.nodup_iff_count_le_one.mp hids2 env_id
  calc ((update_environment_list { env with status := "running" }
        (regs.map (reconcile gw))).filter (fun e =>
          (if env.status = "created" ∧ installed_nodes = true then
            restart_container
              (start_container (stop_other_environments gw
                (regs.map (reconcile gw)) env_id) env.id) env.id
          else
            start_container (stop_other_environments gw
              (regs.map (reconcile gw)) env_id) env.id).lookup e.id ==
            some "running")).length
      = List.countP (fun e =>
          (if env.status = "created" ∧ installed_nodes = true then
            restart_container
              (start_container (stop_other_environments gw
                (regs.map (reconcile gw)) env_id) env.id) env.id
          else
            start_container (stop_other_environments gw
              (regs.map (reconcile gw)) env_id) env.id).lookup e.id ==
            some "running")
          (update_environment_list { env with status := "running" }
            (regs.map (reconcile gw))) := (List.countP_eq_length_filter _ _).symm
    _ ≤ List.countP (fun e => e.id == env_id)
          (update_environment_list { env with status := "running" }
            (regs.map (reconcile gw))) := hc1
    _ = List.count env_id ((update_environment_list { env with status := "running" }
          (regs.map (reconcile gw))).map Env.id) := hc2
    _ ≤ 1 := hcount

/-- First registry record of the C6 witness, with a running container. -/
def envWA : Env :=
  { name := "wa", image := "img", container_name := "na", id := "a",
    status := "", command := "", comfyui_path := "/h", duplicate := false,
    metadata := [], folderIds := [] }

/-- Second registry record of the C6 witness, the activation target. -/
def envWB : Env :=
  { name := "wb", image := "img", container_name := "nb", id := "b",
    status := "", command := "", comfyui_path := "/h", duplicate := false,
    metadata := [], folderIds := [] }

/-- Witness for the C6 theorem: activating `b` while `a` runs stops `a`
and leaves at most one environment running. -/
theorem activate_single_running_witness :
    (([{ envWA with status := "running" }, { envWB with status := "running" }] :
        List Env).filter (fun e =>
          ([("a", "exited"), ("b", "running")] : Gateway).lookup e.id ==
            some "running")).length ≤ 1 :=
  (activate_single_running [("a", "running"), ("b", "exited")] [envWA, envWB]
    "b" false [("a", "exited"), ("b", "running")]
    [{ envWA with status := "running" }, { envWB with status := "running" }]
    { envWB with status := "running" } (by decide)).2 (by decide)

end ComfyDock
